import Mathlib

/-!
Verification of rd.py — reminder scheduling and due-date resolution.

Shallow embedding of `rd.py` (a shell-based reminder system).  Strings from
the program are modelled as `List Char` so that every operation is a plain
structural recursion that the kernel can evaluate.  Python library behaviour
(`int()`, `datetime.strptime('%m/%d')`, `datetime.date` arithmetic and
comparison, `str.split`) is embedded with the semantics of the CPython
implementations, restricted to the fragments the program exercises.

Python exceptions that the program does not catch are modelled by the
distinguished result `PResult.raised` (the process would die with a
traceback); the value `None` is `PResult.retNone`.
-/

/-- Strings are modelled as lists of characters. -/
abbrev Str := List Char

/-- Python `str.split(sep)` for a single-character separator: splits on every
occurrence, keeping empty segments (`''.split('@') == ['']`). -/
def splitOnChar (c : Char) : Str → List Str
  | [] => [[]]
  | x :: xs =>
    if x = c then [] :: splitOnChar c xs
    else
      match splitOnChar c xs with
      | [] => [[x]]            -- unreachable: splitOnChar never returns []
      | g :: gs => (x :: g) :: gs

/-- Value of a list of decimal digit characters, most significant first. -/
def digitsToNat (cs : Str) : Nat :=
  cs.foldl (fun acc c => 10 * acc + (c.toNat - 48)) 0

/-- Python `int(s)` on a string: optional single sign followed by a nonempty
run of decimal digits; anything else raises `ValueError` (modelled as `none`).
(The whitespace/underscore forms accepted by CPython are not used by any
input the program can receive from its grammar and are not modelled.) -/
def pyIntDigits (sign : Int) (ds : Str) : Option Int :=
  if ds.isEmpty then none
  else if ds.all Char.isDigit then some (sign * digitsToNat ds) else none

def pyInt (cs : Str) : Option Int :=
  match cs with
  | [] => none
  | c :: rest =>
    if c = '+' then pyIntDigits 1 rest
    else if c = '-' then pyIntDigits (-1) rest
    else pyIntDigits 1 (c :: rest)

/-- Gregorian leap-year rule, as in Python's `calendar.isleap` /
`datetime.date`. -/
def isLeap (y : Int) : Bool :=
  decide (y.emod 4 = 0 ∧ (y.emod 100 ≠ 0 ∨ y.emod 400 = 0))

/-- Number of days of month `m` (1–12); 0 for out-of-range months. -/
def daysInMonth (leap : Bool) (m : Nat) : Nat :=
  match m with
  | 1 => 31 | 2 => if leap then 29 else 28 | 3 => 31 | 4 => 30
  | 5 => 31 | 6 => 30 | 7 => 31 | 8 => 31 | 9 => 30 | 10 => 31
  | 11 => 30 | 12 => 31 | _ => 0

/-- A calendar date, as in Python's `datetime.date` (year unbounded here;
Python's `[1, 9999]` range is enforced at the operations that check it). -/
structure Date where
  year : Int
  month : Nat
  day : Nat
deriving Repr, DecidableEq

/-- The month/day fields describe a real calendar day of the year. -/
def validDate (d : Date) : Prop :=
  1 ≤ d.month ∧ d.month ≤ 12 ∧ 1 ≤ d.day ∧ d.day ≤ daysInMonth (isLeap d.year) d.month

instance (d : Date) : Decidable (validDate d) := by unfold validDate; infer_instance

/-- Python `date` comparison: lexicographic on (year, month, day), which on
valid dates agrees with chronological order. -/
def DLt (a b : Date) : Prop :=
  a.year < b.year ∨ (a.year = b.year ∧
    (a.month < b.month ∨ (a.month = b.month ∧ a.day < b.day)))

instance (a b : Date) : Decidable (DLt a b) := by unfold DLt; infer_instance

/-- Boolean form of the Python `<` on dates. -/
def dateLt (a b : Date) : Bool := decide (DLt a b)

/-- The calendar day after `d`. -/
def nextDay (d : Date) : Date :=
  if d.day < daysInMonth (isLeap d.year) d.month then ⟨d.year, d.month, d.day + 1⟩
  else if d.month < 12 then ⟨d.year, d.month + 1, 1⟩
  else ⟨d.year + 1, 1, 1⟩

/-- The calendar day before `d`. -/
def predDay (d : Date) : Date :=
  if 1 < d.day then ⟨d.year, d.month, d.day - 1⟩
  else if 1 < d.month then ⟨d.year, d.month - 1, daysInMonth (isLeap d.year) (d.month - 1)⟩
  else ⟨d.year - 1, 12, 31⟩

/-- Date `d` advanced by `n` calendar days. -/
def addDaysNat (d : Date) : Nat → Date
  | 0 => d
  | n + 1 => nextDay (addDaysNat d n)

/-- Date `d` moved back by `n` calendar days. -/
def subDaysNat (d : Date) : Nat → Date
  | 0 => d
  | n + 1 => predDay (subDaysNat d n)

/-- Python `d + timedelta(days=n)`: shift by `n` days; raises `OverflowError`
(modelled as `none`) when the result leaves Python's date range, i.e. when
its year leaves `[1, 9999]`. -/
def timedeltaShift (d : Date) (n : Int) : Date :=
  if 0 ≤ n then addDaysNat d n.toNat else subDaysNat d (-n).toNat

def pyAddDays (d : Date) (n : Int) : Option Date :=
  if 1 ≤ (timedeltaShift d n).year ∧ (timedeltaShift d n).year ≤ 9999
  then some (timedeltaShift d n) else none

/-- Python `d.replace(year=y)`: revalidates the full date against the new
year (so `Feb 29` moved to a non-leap year raises, modelled as `none`). -/
def pyReplaceYear (d : Date) (y : Int) : Option Date :=
  if 1 ≤ y ∧ y ≤ 9999 ∧ 1 ≤ d.month ∧ d.month ≤ 12 ∧
      1 ≤ d.day ∧ d.day ≤ daysInMonth (isLeap y) d.month
  then some ⟨y, d.month, d.day⟩ else none

/-- Python `datetime.strptime(day_str, '%m/%d')`, reduced to its `.date()` fields:
two slash-separated groups of 1–2 digits; strptime's implicit default year
is 1900 (not a leap year), so `02/29` is rejected; month and day are
range-checked.  Failure raises `ValueError` (modelled as `none`). -/
def strptimeMD (s : Str) : Option (Nat × Nat) :=
  match splitOnChar '/' s with
  | [ms, ds] =>
    if 1 ≤ ms.length ∧ ms.length ≤ 2 ∧ ms.all Char.isDigit ∧
        1 ≤ ds.length ∧ ds.length ≤ 2 ∧ ds.all Char.isDigit then
      if 1 ≤ digitsToNat ms ∧ digitsToNat ms ≤ 12 ∧ 1 ≤ digitsToNat ds ∧
          digitsToNat ds ≤ daysInMonth false (digitsToNat ms)
      then some (digitsToNat ms, digitsToNat ds) else none
    else none
  | _ => none

/-- Function `parse_time_str` from rd.py: strip a trailing `am`/`pm` and call `int()`
on the rest (`pm` adds 12).  No range check of any kind is performed; a
failing `int()` raises `ValueError` (modelled as `none`). -/
def parse_time_str (time_str : Str) : Option Int :=
  if time_str.drop (time_str.length - 2) = ['a', 'm'] then
    pyInt (time_str.take (time_str.length - 2))
  else if time_str.drop (time_str.length - 2) = ['p', 'm'] then
    (pyInt (time_str.take (time_str.length - 2))).map (· + 12)
  else
    pyInt time_str

/-- Outcome of a Python call that can return a value, return `None`, or die
on an uncaught exception. -/
inductive PResult (α : Type) where
  | ok (val : α)
  | retNone
  | raised
deriving Repr, DecidableEq

/-- The day-resolution block of `parse_due_str` (rd.py lines 195–215): the
`+N` branch or the `MM/DD`-plus-current-year branch, followed by the shared
year-inference step.  Returns the resolved day together with the flag
recording whether the user-visible `Info:` message was printed (the `else`
branch only calls `dbg_print`, which is silent since `DEBUG_MODE = False`). -/
def resolve_day_base (today : Date) (day_str : Str) : PResult Date :=
  if day_str.take 1 = ['+'] then
    -- day = today + timedelta(days=int(day_str[1:]))
    match pyInt (day_str.drop 1) with
    | none => .raised
    | some n =>
      match pyAddDays today n with
      | none => .raised
      | some d => .ok d
  else
    -- day = datetime.strptime(day_str, '%m/%d').date(); day = day.replace(year=today.year)
    match strptimeMD day_str with
    | none => .raised
    | some (m, d) =>
      match pyReplaceYear ⟨1900, m, d⟩ today.year with
      | none => .raised
      | some d' => .ok d'

/-- The year-inference step of `parse_due_str` on top of the day branches:
the flag in the result records whether the user-visible `Info:` message was
printed (the condition `today - timedelta(days=30) < day`; the `else` branch
only calls `dbg_print`, which is silent since `DEBUG_MODE = False`). -/
def resolve_day (today : Date) (day_str : Str) : PResult (Date × Bool) :=
  match resolve_day_base today day_str with
  | .raised => .raised
  | .retNone => .retNone
  | .ok day0 =>
    -- if day < today: (possibly warn, then) day = day.replace(year=today.year+1)
    if dateLt day0 today then
      match pyAddDays today (-30) with
      | none => .raised
      | some t30 =>
        match pyReplaceYear day0 (today.year + 1) with
        | none => .raised
        | some day1 => .ok (day1, dateLt t30 day0)
    else .ok (day0, false)

/-- The due-instant produced by `parse_due_str`: the fields of the
`datetime(...)` it builds (minute and second are zero). -/
structure Due where
  year : Int
  month : Nat
  day : Nat
  hour : Int
deriving Repr, DecidableEq

/-- The `datetime(year, month, day, hour=hour)` constructor: validates every
field (`ValueError`, modelled as `none`, when out of range). -/
def mkDatetime (y : Int) (m d : Nat) (hour : Int) : Option Due :=
  if 1 ≤ y ∧ y ≤ 9999 ∧ 1 ≤ m ∧ m ≤ 12 ∧ 1 ≤ d ∧ d ≤ daysInMonth (isLeap y) m ∧
      0 ≤ hour ∧ hour < 24
  then some ⟨y, m, d, hour⟩ else none

/-- Body of `parse_due_str` once the day and time substrings are fixed.
Note the source's `if hour is None: return None` test is dead code: Python's
`parse_time_str` either returns an int or raises. -/
def parse_due_parts (today : Date) (day_str time_str : Str) : PResult (Due × Bool) :=
  match resolve_day today day_str with
  | .raised => .raised
  | .retNone => .retNone
  | .ok (day, note) =>
    match parse_time_str time_str with
    | none => .raised
    | some hour =>
      match mkDatetime day.year day.month day.day hour with
      | none => .raised
      | some due => .ok (due, note)

/-- Function `parse_due_str` from rd.py: split on `'@'`; more than two parts returns
`None`; a missing time part defaults to `'8am'`.  `date.today()` is the
explicit parameter `today`. -/
def parse_due_str (today : Date) (due_str : Str) : PResult (Due × Bool) :=
  match splitOnChar '@' due_str with
  | [day_str] => parse_due_parts today day_str ['8', 'a', 'm']
  | [day_str, time_str] => parse_due_parts today day_str time_str
  | _ => .retNone    -- len(parts) > 2 (zero parts cannot occur)

/-! ## The reminder store -/

/-- A reminder record: the persisted fields `text` and `due` (epoch seconds;
only its ordering matters here, so it is taken as an integer) plus the
transient `id` key (`none` when the key is absent from the dict). -/
structure Reminder where
  text : String
  due : Int
  id : Option Nat
deriving Repr, DecidableEq

/-- The persisted part of a reminder (`{'text': ..., 'due': ...}`). -/
def coreFields (r : Reminder) : String × Int := (r.text, r.due)

/-- Function `add_ids` from rd.py, with the running `num_ids_given` counter made
explicit: every record first loses its `id` key; records with `due > now`
stay without one; the others get consecutive ids starting at `n + 1`. -/
def add_ids_go (now : Int) (n : Nat) : List Reminder → List Reminder
  | [] => []
  | r :: rs =>
    if now < r.due then { r with id := none } :: add_ids_go now n rs
    else { r with id := some (n + 1) } :: add_ids_go now (n + 1) rs

/-- Function `add_ids(reminders)` from rd.py (`now = time.time()` is a parameter). -/
def add_ids (now : Int) (rs : List Reminder) : List Reminder :=
  add_ids_go now 0 rs

/-- Function `get_reminders` on a cold cache with an existing save file holding the
record list `file`: `add_ids(json.load(f))` — the loaded order is the file
order, no sorting happens. -/
def get_reminders (now : Int) (file : List (String × Int)) : List Reminder :=
  add_ids now (file.map fun p => { text := p.1, due := p.2, id := none })

/-- The list of records `print_reminders(do_show_all=False)` prints: exactly
those with `due <= now`, in the order of the current reminder list. -/
def print_reminders_list (now : Int) (rs : List Reminder) : List Reminder :=
  rs.filter (fun r => decide (r.due ≤ now))

/-- The comparison `r.get('id') == id_num` from `mark_done`: a record whose
dict lacks the `id` key compares unequal to every number. -/
def matchesId (idn : Int) (r : Reminder) : Bool :=
  match r.id with
  | some j => decide ((j : Int) = idn)
  | none => false

/-- Python `enumerate`, with explicit start index. -/
def pyEnumFrom (i : Nat) : List Reminder → List (Nat × Reminder)
  | [] => []
  | r :: rs => (i, r) :: pyEnumFrom (i + 1) rs

/-- The list `matching` of indices whose record satisfies `r.get('id') == id_num`. -/
def matchingIdx (idn : Int) (rs : List Reminder) : List Nat :=
  ((pyEnumFrom 0 rs).filter (fun p => matchesId idn p.2)).map Prod.fst

/-- The empty string (the `getD` default can never be hit: the matched index
is a position of the list). -/
def emptyText : String := ""

/-- Observable outcome of `mark_done`. -/
inductive MDResult where
  | notFound (idn : Int)              -- 'Error: no reminder with id ...' then exit
  | assertFail                        -- the `assert len(matching) == 1` fired
  | done (removed : String) (newState : List Reminder)
deriving Repr, DecidableEq

/-- Whether a `mark_done` outcome is the assertion failure. -/
def isAssertFail : MDResult → Bool
  | .assertFail => true
  | _ => false

/-- Function `mark_done(reminder_id)` from rd.py, acting on the current in-memory
list `rs` (ids as computed at load/save time); `now` is the clock value
`save_reminders`' call to `add_ids` sees.  Returns the outcome together with
the in-memory list after the call (unchanged unless a save happened). -/
def mark_done (now : Int) (idn : Int) (rs : List Reminder) :
    MDResult × List Reminder :=
  match matchingIdx idn rs with
  | [] => (.notFound idn, rs)                       -- no mutation, no save
  | [index] =>                                      -- del + save_reminders
    (.done (Option.getD ((rs.get? index).map Reminder.text) emptyText)
       (add_ids now (rs.eraseIdx index)),
     add_ids now (rs.eraseIdx index))
  | _ => (.assertFail, rs)                          -- assert(len(matching) == 1)

/-- Observable outcome of `add_reminder`. -/
inductive AddResult where
  | raised                            -- uncaught exception out of parse_due_str
  | parseFailExit (echo : Str)        -- 'Unable to parse the due date: %s' % due_str; exit(2)
  | added (newState : List Reminder)
deriving Repr, DecidableEq

/-- The append, stable descending re-sort and save performed by a successful
`add_reminder`: the new record (without an `id` key) is appended, the list is
re-sorted by `sorted(..., key=lambda x: x['due'], reverse=True)` (a stable
descending sort, as `List.mergeSort` with this comparison is), and
`save_reminders` re-runs `add_ids`. -/
def add_save (mktime : Due → Int) (now : Int) (due : Due) (text : String)
    (rs0 : List Reminder) : List Reminder :=
  add_ids now ((rs0 ++ [({ text := text, due := mktime due, id := none } : Reminder)]).mergeSort
    (fun a b => decide (b.due ≤ a.due)))

/-- Function `add_reminder(due_str, text)` from rd.py.  `mktime` abstracts
`time.mktime` (an order-embedding of local calendar times into epoch
seconds); `now` is the clock for `save_reminders`' `add_ids`.  On a parse
failure the reminder list is untouched and nothing is saved. -/
def add_reminder (mktime : Due → Int) (now : Int) (today : Date)
    (due_str : Str) (text : String) (rs0 : List Reminder) :
    AddResult × List Reminder :=
  match parse_due_str today due_str with
  | .raised => (.raised, rs0)
  | .retNone => (.parseFailExit due_str, rs0)
  | .ok (due, _note) =>
    (.added (add_save mktime now due text rs0), add_save mktime now due text rs0)

/-! ## Order and arithmetic facts about the calendar embedding -/

theorem DLt_trans {a b c : Date} (h1 : DLt a b) (h2 : DLt b c) : DLt a c := by
  unfold DLt at *; omega

theorem DLt_irrefl (a : Date) : ¬ DLt a a := by
  unfold DLt; omega

theorem DLt_asymm {a b : Date} (h1 : DLt a b) (h2 : DLt b a) : False :=
  DLt_irrefl a (DLt_trans h1 h2)

/-- Trichotomy for the lexicographic date order, with equality spelled out
fieldwise. -/
theorem DLt_trichotomy (a b : Date) :
    DLt a b ∨ (a.year = b.year ∧ a.month = b.month ∧ a.day = b.day) ∨ DLt b a := by
  unfold DLt; omega

theorem Date.eq_of_fields {a b : Date} (h1 : a.year = b.year) (h2 : a.month = b.month)
    (h3 : a.day = b.day) : a = b := by
  cases a; cases b; simp_all

theorem predDay_lt (d : Date) : DLt (predDay d) d := by
  unfold predDay DLt
  split
  · dsimp only; omega
  · split
    · dsimp only; omega
    · dsimp only; omega

theorem nextDay_gt (d : Date) : DLt d (nextDay d) := by
  unfold nextDay DLt
  split
  · dsimp only; omega
  · split
    · dsimp only; omega
    · dsimp only; omega

theorem addDaysNat_not_lt (d : Date) (n : Nat) : ¬ DLt (addDaysNat d n) d := by
  have key : ∀ k, addDaysNat d k = d ∨ DLt d (addDaysNat d k) := by
    intro k
    induction k with
    | zero => exact Or.inl rfl
    | succ k ih =>
      have hstep : DLt (addDaysNat d k) (addDaysNat d (k + 1)) := nextDay_gt _
      rcases ih with h | h
      · rw [h] at hstep; exact Or.inr hstep
      · exact Or.inr (DLt_trans h hstep)
  rcases key n with h | h
  · rw [h]; exact DLt_irrefl d
  · exact fun hc => DLt_asymm h hc

theorem subDaysNat_lt (d : Date) {n : Nat} (hn : 0 < n) : DLt (subDaysNat d n) d := by
  induction n with
  | zero => omega
  | succ n ih =>
    cases Nat.eq_zero_or_pos n with
    | inl h => subst h; exact predDay_lt d
    | inr h => exact DLt_trans (predDay_lt (subDaysNat d n)) (ih h)

theorem subDaysNat_add (d : Date) (a b : Nat) :
    subDaysNat d (a + b) = subDaysNat (subDaysNat d a) b := by
  induction b with
  | zero => rfl
  | succ b ih =>
    show predDay (subDaysNat d (a + b)) = predDay (subDaysNat (subDaysNat d a) b)
    rw [ih]

theorem daysInMonth_pos (b : Bool) {m : Nat} (h1 : 1 ≤ m) (h2 : m ≤ 12) :
    1 ≤ daysInMonth b m := by
  interval_cases m <;> cases b <;> decide

theorem daysInMonth_twelve (b : Bool) : daysInMonth b 12 = 31 := rfl

theorem daysInMonth_false_le (b : Bool) (m : Nat) : daysInMonth false m ≤ daysInMonth b m := by
  cases b
  · exact Nat.le_refl _
  · unfold daysInMonth
    split <;> simp

theorem validDate_predDay {d : Date} (h : validDate d) : validDate (predDay d) := by
  obtain ⟨h1, h2, h3, h4⟩ := h
  unfold predDay validDate
  split
  · dsimp only; omega
  · split
    · refine ⟨?_, ?_, ?_, ?_⟩ <;> dsimp only
      · omega
      · omega
      · exact daysInMonth_pos _ (by omega) (by omega)
      · exact Nat.le_refl _
    · refine ⟨?_, ?_, ?_, ?_⟩ <;> dsimp only
      · omega
      · omega
      · omega
      · rw [daysInMonth_twelve]

theorem validDate_subDaysNat {d : Date} (h : validDate d) (n : Nat) :
    validDate (subDaysNat d n) := by
  induction n with
  | zero => exact h
  | succ n ih => exact validDate_predDay ih

/-- Discreteness of the calendar: no valid date lies strictly between the
day before `d` and `d`. -/
theorem no_date_between {d x : Date} (hd : validDate d) (hx : validDate x)
    (h1 : DLt (predDay d) x) (h2 : DLt x d) : False := by
  obtain ⟨hd1, hd2, hd3, hd4⟩ := hd
  obtain ⟨hx1, hx2, hx3, hx4⟩ := hx
  unfold predDay at h1
  split at h1
  · unfold DLt at h1 h2; dsimp only at h1; omega
  · split at h1
    · -- d is the first day of a month other than January: x would have to
      -- sit in the previous month, past its last day
      unfold DLt at h1 h2
      dsimp only at h1
      have hyx : x.year = d.year := by omega
      have hmx : x.month = d.month - 1 ∨ x.month = d.month := by omega
      rcases hmx with hm | hm
      · rw [hyx, hm] at hx4
        omega
      · omega
    · -- d is January 1st: x would have to sit past December 31st
      unfold DLt at h1 h2
      dsimp only at h1
      have hyx : x.year = d.year - 1 ∨ x.year = d.year := by omega
      rcases hyx with hy | hy
      · have hmx : x.month = 12 := by omega
        rw [hy, hmx] at hx4
        rw [daysInMonth_twelve] at hx4
        omega
      · omega

/-- Any valid date strictly between `today - 30 days` and `today` equals
`today - k days` for some `0 < k < 30`. -/
theorem between_finds {today day0 : Date} (ht : validDate today) (hx : validDate day0) :
    ∀ m n, n + m = 30 → DLt day0 (subDaysNat today n) → DLt (subDaysNat today 30) day0 →
      ∃ k, n < k ∧ k < 30 ∧ day0 = subDaysNat today k := by
  intro m
  induction m with
  | zero =>
    intro n hn h1 h2
    have h30 : n = 30 := by omega
    subst h30
    exact absurd h1 (fun h => DLt_asymm h h2)
  | succ m ih =>
    intro n hn h1 h2
    have hsub : subDaysNat today (n + 1) = predDay (subDaysNat today n) := rfl
    rcases DLt_trichotomy day0 (subDaysNat today (n + 1)) with h | h | h
    · obtain ⟨k, hk1, hk2, hk3⟩ := ih (n + 1) (by omega) h h2
      exact ⟨k, by omega, hk2, hk3⟩
    · have heq : day0 = subDaysNat today (n + 1) :=
        Date.eq_of_fields h.1 h.2.1 h.2.2
      have hlt : n + 1 < 30 := by
        rcases Nat.lt_or_ge (n + 1) 30 with h' | h'
        · exact h'
        · have h30 : n + 1 = 30 := by omega
          rw [h30] at heq
          rw [heq] at h2
          exact absurd h2 (DLt_irrefl _)
      exact ⟨n + 1, by omega, hlt, heq⟩
    · rw [hsub] at h
      exact (no_date_between (validDate_subDaysNat ht n) hx h h1).elim

/-! ## Facts about the embedded Python library calls -/

theorem strptimeMD_bounds {s : Str} {m d : Nat} (h : strptimeMD s = some (m, d)) :
    1 ≤ m ∧ m ≤ 12 ∧ 1 ≤ d ∧ d ≤ daysInMonth false m := by
  unfold strptimeMD at h
  split at h
  · split at h
    · split at h
      · next hc =>
          simp only [Option.some.injEq, Prod.mk.injEq] at h
          obtain ⟨h1, h2⟩ := h
          subst h1; subst h2
          exact hc
      · simp at h
    · simp at h
  · simp at h

theorem pyReplaceYear_some {d : Date} {y : Int} {e : Date}
    (h : pyReplaceYear d y = some e) : e = ⟨y, d.month, d.day⟩ := by
  unfold pyReplaceYear at h
  split at h
  · injection h with h; exact h.symm
  · simp at h

theorem pyAddDays_some {d : Date} {n : Int} {r : Date}
    (h : pyAddDays d n = some r) : r = timedeltaShift d n := by
  unfold pyAddDays at h
  split at h
  · injection h with h; exact h.symm
  · simp at h

theorem timedeltaShift_neg30 (d : Date) : timedeltaShift d (-30) = subDaysNat d 30 := by
  unfold timedeltaShift
  rw [if_neg (by decide)]
  congr 1

theorem timedeltaShift_ofNat (d : Date) (k : Nat) :
    timedeltaShift d (k : Int) = addDaysNat d k := by
  unfold timedeltaShift
  rw [if_pos (Int.natCast_nonneg k), Int.toNat_natCast]

theorem pyInt_digits {ds : Str} (hne : ds ≠ []) (hdig : ds.all Char.isDigit = true) :
    pyInt ds = some ((digitsToNat ds : Nat) : Int) := by
  cases ds with
  | nil => exact absurd rfl hne
  | cons c rest =>
    have hc : c.isDigit = true := by
      simp only [List.all_cons, Bool.and_eq_true] at hdig
      exact hdig.1
    have hcp : ¬ (c = '+') := by intro h; rw [h] at hc; exact absurd hc (by decide)
    have hcm : ¬ (c = '-') := by intro h; rw [h] at hc; exact absurd hc (by decide)
    unfold pyInt
    dsimp only
    rw [if_neg hcp, if_neg hcm]
    unfold pyIntDigits
    rw [if_neg (by simp), if_pos hdig, one_mul]

/-! ## Facts about id assignment and the store operations -/

theorem print_reminders_list_def (now : Int) (rs : List Reminder) :
    print_reminders_list now rs = rs.filter (fun r => decide (r.due ≤ now)) := rfl

theorem add_ids_go_map_core (now : Int) (n : Nat) (rs : List Reminder) :
    (add_ids_go now n rs).map coreFields = rs.map coreFields := by
  induction rs generalizing n with
  | nil => rfl
  | cons r rs ih =>
    unfold add_ids_go
    split
    · simp only [List.map_cons, ih]; rfl
    · simp only [List.map_cons, ih]; rfl

theorem add_ids_go_filter_core (now : Int) (n : Nat) (rs : List Reminder) :
    ((add_ids_go now n rs).filter (fun r => decide (r.due ≤ now))).map coreFields
      = (rs.filter (fun r => decide (r.due ≤ now))).map coreFields := by
  induction rs generalizing n with
  | nil => rfl
  | cons r rs ih =>
    unfold add_ids_go
    split
    · next hgt =>
      rw [List.filter_cons, List.filter_cons]
      rw [if_neg (by simp <;> omega), if_neg (by simp <;> omega)]
      exact ih n
    · next hgt =>
      rw [List.filter_cons, List.filter_cons]
      rw [if_pos (by simp <;> omega), if_pos (by simp <;> omega)]
      simp only [List.map_cons, ih (n + 1)]
      rfl

theorem add_ids_go_filter_ids (now : Int) (n : Nat) (rs : List Reminder) :
    ((add_ids_go now n rs).filter (fun r => decide (r.due ≤ now))).map Reminder.id
      = (List.range' (n + 1) (rs.filter (fun r => decide (r.due ≤ now))).length).map some := by
  induction rs generalizing n with
  | nil => rfl
  | cons r rs ih =>
    unfold add_ids_go
    split
    · next hgt =>
      rw [List.filter_cons, List.filter_cons]
      rw [if_neg (by simp <;> omega), if_neg (by simp <;> omega)]
      exact ih n
    · next hgt =>
      rw [List.filter_cons, List.filter_cons]
      rw [if_pos (by simp <;> omega), if_pos (by simp <;> omega)]
      rw [List.length_cons, List.range'_succ]
      simp only [List.map_cons, ih (n + 1)]

theorem add_ids_go_due (now : Int) (n : Nat) (rs : List Reminder) :
    (add_ids_go now n rs).map Reminder.due = rs.map Reminder.due := by
  induction rs generalizing n with
  | nil => rfl
  | cons r rs ih =>
    unfold add_ids_go
    split
    · simp only [List.map_cons, ih]
    · simp only [List.map_cons, ih]

theorem add_ids_go_notdue (now : Int) (n : Nat) (rs : List Reminder) :
    ∀ r ∈ add_ids_go now n rs, now < r.due → r.id = none := by
  induction rs generalizing n with
  | nil => intro r hr; exact absurd hr (List.not_mem_nil r)
  | cons r rs ih =>
    intro x hx hdue
    unfold add_ids_go at hx
    split at hx
    · rcases List.mem_cons.mp hx with h | h
      · rw [h]
      · exact ih n x h hdue
    · next hgt =>
      rcases List.mem_cons.mp hx with h | h
      · rw [h] at hdue; dsimp only at hdue; omega
      · exact ih (n + 1) x h hdue

theorem add_ids_go_filterMap_ids (now : Int) (n : Nat) (rs : List Reminder) :
    (add_ids_go now n rs).filterMap Reminder.id
      = List.range' (n + 1) ((rs.filter (fun r => decide (r.due ≤ now))).length) := by
  induction rs generalizing n with
  | nil => rfl
  | cons r rs ih =>
    unfold add_ids_go
    split
    · next hgt =>
      rw [List.filter_cons, if_neg (by simp <;> omega)]
      rw [List.filterMap_cons]
      dsimp only
      exact ih n
    · next hgt =>
      rw [List.filter_cons, if_pos (by simp <;> omega)]
      rw [List.filterMap_cons]
      dsimp only
      rw [List.length_cons, List.range'_succ, ih (n + 1)]

theorem matchesId_coe {k : Nat} {r : Reminder} :
    matchesId (k : Int) r = true ↔ r.id = some k := by
  unfold matchesId
  cases hr : r.id with
  | none => simp
  | some j => simp

theorem matching_empty (idn : Int) (rs : List Reminder) (i0 : Nat)
    (h : ∀ r ∈ rs, ¬ (matchesId idn r = true)) :
    ((pyEnumFrom i0 rs).filter (fun p => matchesId idn p.2)).map Prod.fst = [] := by
  induction rs generalizing i0 with
  | nil => rfl
  | cons r rs ih =>
    unfold pyEnumFrom
    rw [List.filter_cons, if_neg (h r (List.mem_cons_self r rs))]
    exact ih (i0 + 1) (fun x hx => h x (List.mem_cons_of_mem r hx))

theorem matchesId_elim {idn : Int} {r : Reminder} (h : matchesId idn r = true) :
    ∃ j, r.id = some j ∧ (j : Int) = idn := by
  unfold matchesId at h
  cases hr : r.id with
  | none => rw [hr] at h; simp at h
  | some j => rw [hr] at h; exact ⟨j, rfl, by simpa using h⟩

theorem matching_no_other (idn : Int) {j : Nat} {rs : List Reminder} (i0 : Nat)
    (hj : (j : Int) = idn) (hnotin : j ∉ rs.filterMap Reminder.id) :
    ((pyEnumFrom i0 rs).filter (fun p => matchesId idn p.2)).map Prod.fst = [] := by
  apply matching_empty
  intro x hx hc
  obtain ⟨j2, hid2, hj2⟩ := matchesId_elim hc
  have : j2 = j := by omega
  subst this
  exact hnotin (List.mem_filterMap.mpr ⟨x, hx, hid2⟩)

theorem matching_single (k : Nat) (rs : List Reminder) :
    ∀ i0 i (hi : i < rs.length), (rs.filterMap Reminder.id).Nodup →
      (rs.get ⟨i, hi⟩).id = some k →
      ((pyEnumFrom i0 rs).filter (fun p => matchesId (k : Int) p.2)).map Prod.fst
        = [i0 + i] := by
  induction rs with
  | nil => intro i0 i hi; exact absurd hi (by simp)
  | cons r rs ih =>
    intro i0 i hi hnd hget
    unfold pyEnumFrom
    rw [List.filter_cons]
    cases i with
    | zero =>
      have hid : r.id = some k := hget
      rw [if_pos (matchesId_coe.mpr hid)]
      have hnotin : k ∉ rs.filterMap Reminder.id := by
        rw [List.filterMap_cons, hid] at hnd
        exact (List.nodup_cons.mp hnd).1
      rw [List.map_cons, matching_no_other (k : Int) (i0 + 1) rfl hnotin]
      simp
    | succ i =>
      have hgets : (rs.get ⟨i, by exact Nat.lt_of_succ_lt_succ hi⟩).id = some k := hget
      have hkin : k ∈ rs.filterMap Reminder.id :=
        List.mem_filterMap.mpr ⟨rs.get ⟨i, Nat.lt_of_succ_lt_succ hi⟩, List.get_mem rs i _, hgets⟩
      have hhead : ¬ (matchesId (k : Int) r = true) := by
        intro hc
        have hid : r.id = some k := matchesId_coe.mp hc
        rw [List.filterMap_cons, hid] at hnd
        exact (List.nodup_cons.mp hnd).1 hkin
      have hnd' : (rs.filterMap Reminder.id).Nodup := by
        rw [List.filterMap_cons] at hnd
        cases hr : r.id with
        | none => rw [hr] at hnd; exact hnd
        | some j => rw [hr] at hnd; exact (List.nodup_cons.mp hnd).2
      rw [if_neg hhead, ih (i0 + 1) i (Nat.lt_of_succ_lt_succ hi) hnd' hgets]
      congr 1
      omega

theorem add_ids_go_pairwise (now : Int) (n : Nat) (rs : List Reminder)
    (h : List.Pairwise (fun a b => b.due ≤ a.due) rs) :
    List.Pairwise (fun a b => b.due ≤ a.due) (add_ids_go now n rs) := by
  have h1 : (rs.map Reminder.due).Pairwise (fun a b => b ≤ a) := List.pairwise_map.mpr h
  rw [← add_ids_go_due now n rs] at h1
  exact List.pairwise_map.mp h1

theorem add_ids_filterMap (now : Int) (rs : List Reminder) :
    (add_ids now rs).filterMap Reminder.id
      = List.range' 1 ((rs.filter (fun r => decide (r.due ≤ now))).length) := by
  simpa [add_ids] using add_ids_go_filterMap_ids now 0 rs

theorem add_ids_listing_ids (now : Int) (rs : List Reminder) :
    (print_reminders_list now (add_ids now rs)).map Reminder.id
      = (List.range' 1 (print_reminders_list now (add_ids now rs)).length).map some := by
  simp only [print_reminders_list_def, add_ids]
  have hlen : ((add_ids_go now 0 rs).filter (fun r => decide (r.due ≤ now))).length
      = (rs.filter (fun r => decide (r.due ≤ now))).length := by
    have h := add_ids_go_filter_core now 0 rs
    have := congrArg List.length h
    simpa using this
  rw [hlen]
  simpa using add_ids_go_filter_ids now 0 rs

/-- C4: for every reminder set (satisfying the spec's sorted-descending Set
invariant) and every instant `now`, the default listing shows exactly the
reminders with `due ≤ now`, in descending-due order, numbered densely
`1..K` with no gaps (`K` the number of currently-due reminders), and
reminders not yet due carry no display id. -/
theorem claim4_default_listing (now : Int) (rs : List Reminder)
    (hs : List.Pairwise (fun a b => b.due ≤ a.due) rs) :
    (print_reminders_list now (add_ids now rs)).map coreFields
        = (rs.filter (fun r => decide (r.due ≤ now))).map coreFields
      ∧ List.Pairwise (fun a b => b.due ≤ a.due) (print_reminders_list now (add_ids now rs))
      ∧ (print_reminders_list now (add_ids now rs)).map Reminder.id
          = (List.range' 1 (print_reminders_list now (add_ids now rs)).length).map some
      ∧ ∀ r ∈ add_ids now rs, now < r.due → r.id = none := by
  refine ⟨?_, ?_, ?_, ?_⟩
  · simp only [print_reminders_list_def, add_ids]
    exact add_ids_go_filter_core now 0 rs
  · simp only [print_reminders_list_def, add_ids]
    exact List.Pairwise.filter _ (add_ids_go_pairwise now 0 rs hs)
  · exact add_ids_listing_ids now rs
  · simp only [add_ids]
    exact add_ids_go_notdue now 0 rs

/-- C5: on any reachable state (an `add_ids` image), completing a display id
that some currently-due reminder carries removes exactly that one reminder,
leaves the relative order of the remaining records unchanged (the saved
state is, on the persisted fields, the original list with that one index
erased), and a subsequent listing is again densely renumbered `1..K` with
no gap. -/
theorem claim5_complete_removes (now now2 : Int) (rs0 : List Reminder) (k : Nat)
    (hk : some k ∈ (add_ids now rs0).map Reminder.id) :
    ∃ i, ∃ hi : i < (add_ids now rs0).length,
      ((add_ids now rs0).get ⟨i, hi⟩).id = some k ∧
      mark_done now2 (k : Int) (add_ids now rs0)
        = (.done ((add_ids now rs0).get ⟨i, hi⟩).text
             (add_ids now2 ((add_ids now rs0).eraseIdx i)),
           add_ids now2 ((add_ids now rs0).eraseIdx i)) ∧
      (add_ids now2 ((add_ids now rs0).eraseIdx i)).map coreFields
        = ((add_ids now rs0).eraseIdx i).map coreFields ∧
      (print_reminders_list now2 (add_ids now2 ((add_ids now rs0).eraseIdx i))).map Reminder.id
        = (List.range' 1
            (print_reminders_list now2 (add_ids now2 ((add_ids now rs0).eraseIdx i))).length).map
            some := by
  obtain ⟨r, hr, hid⟩ := List.mem_map.mp hk
  obtain ⟨⟨i, hi⟩, hget⟩ := List.mem_iff_get.mp hr
  have hnd : ((add_ids now rs0).filterMap Reminder.id).Nodup := by
    rw [add_ids_filterMap]
    exact List.nodup_range' _ _
  have hm : matchingIdx (k : Int) (add_ids now rs0) = [i] := by
    unfold matchingIdx
    have := matching_single k (add_ids now rs0) 0 i hi hnd (by rw [hget]; exact hid)
    simpa using this
  refine ⟨i, hi, by rw [hget]; exact hid, ?_, ?_, ?_⟩
  · unfold mark_done
    rw [hm]
    dsimp only
    rw [List.get?_eq_get hi]
    simp only [Option.map_some', Option.getD_some]
  · simp only [add_ids]
    exact add_ids_go_map_core now2 0 _
  · exact add_ids_listing_ids now2 _

/-- C6: when no reminder carries the requested display id (in particular when
it matches no currently-due reminder — only those get ids), `mark_done`
reports a not-found error identifying the requested id, and the reminder
set is left entirely unchanged: the post-state is the original list, and no
save occurs (the `notFound` outcome carries no new state). -/
theorem claim6_notfound_unchanged (now2 idn : Int) (rs : List Reminder)
    (h : ∀ r ∈ rs, ¬ (matchesId idn r = true)) :
    mark_done now2 idn rs = (.notFound idn, rs) := by
  have hm : matchingIdx idn rs = [] := by
    unfold matchingIdx
    exact matching_empty idn rs 0 h
  unfold mark_done
  rw [hm]

/-- C9: display-id assignment is injective — in any list produced by
`add_ids`, the assigned ids are pairwise distinct (`Nodup`), so the
`assert(len(matching) == 1)` inside `mark_done` can never fire on a
reachable state, whatever integer id is requested. -/
theorem claim9_assert_never_fires (now now2 idn : Int) (rs0 : List Reminder) :
    ((add_ids now rs0).filterMap Reminder.id).Nodup
    ∧ isAssertFail (mark_done now2 idn (add_ids now rs0)).1 = false := by
  have hnd : ((add_ids now rs0).filterMap Reminder.id).Nodup := by
    rw [add_ids_filterMap]
    exact List.nodup_range' _ _
  refine ⟨hnd, ?_⟩
  by_cases hex : ∃ r ∈ add_ids now rs0, matchesId idn r = true
  · obtain ⟨r, hr, hmat⟩ := hex
    obtain ⟨j, hid2, hj⟩ := matchesId_elim hmat
    obtain ⟨⟨i, hi⟩, hget⟩ := List.mem_iff_get.mp hr
    subst hj
    have hm : matchingIdx (j : Int) (add_ids now rs0) = [i] := by
      unfold matchingIdx
      have := matching_single j (add_ids now rs0) 0 i hi hnd (by rw [hget]; exact hid2)
      simpa using this
    unfold mark_done
    rw [hm]
    rfl
  · push_neg at hex
    have hm : matchingIdx idn (add_ids now rs0) = [] := by
      unfold matchingIdx
      exact matching_empty idn (add_ids now rs0) 0 (fun r hr => by simp [hex r hr])
    unfold mark_done
    rw [hm]
    rfl

/-- C10: loading performs no re-sorting — the in-memory order after a load is
exactly the persisted record order; `mark_done` only erases one index
(never reorders); only a successful `add_reminder` sorts (descending by
due) before saving; and there exists an unsorted persisted file whose
loaded state violates the sorted-descending invariant. -/
theorem claim10_only_add_sorts :
    (∀ (now : Int) (file : List (String × Int)),
        (get_reminders now file).map coreFields = file)
    ∧ (∀ (now idn : Int) (rs : List Reminder),
        (mark_done now idn rs).2.map coreFields = rs.map coreFields
        ∨ ∃ i, (mark_done now idn rs).2.map coreFields = (rs.eraseIdx i).map coreFields)
    ∧ (∀ (mktime : Due → Int) (now : Int) (today : Date) (due_str : Str)
        (text : String) (rs0 : List Reminder),
        (add_reminder mktime now today due_str text rs0).2 = rs0
        ∨ List.Pairwise (fun a b => b.due ≤ a.due)
            (add_reminder mktime now today due_str text rs0).2)
    ∧ (∃ (now : Int) (file : List (String × Int)),
        ¬ List.Pairwise (fun a b => b.due ≤ a.due) (get_reminders now file)) := by
  refine ⟨?_, ?_, ?_, ?_⟩
  · intro now file
    unfold get_reminders add_ids
    rw [add_ids_go_map_core, List.map_map]
    have hcomp : (coreFields ∘ fun p : String × Int =>
        ({ text := p.1, due := p.2, id := none } : Reminder)) = id := by
      funext p
      rfl
    rw [hcomp, List.map_id]
  · intro now idn rs
    unfold mark_done
    cases hm : matchingIdx idn rs with
    | nil => left; rfl
    | cons a t =>
      cases t with
      | nil =>
        right
        refine ⟨a, ?_⟩
        dsimp only
        simpa [add_ids] using add_ids_go_map_core now 0 (rs.eraseIdx a)
      | cons b t2 => left; rfl
  · intro mktime now today due_str text rs0
    unfold add_reminder
    cases hp : parse_due_str today due_str with
    | raised => left; rfl
    | retNone => left; rfl
    | ok v =>
      right
      obtain ⟨due, note⟩ := v
      dsimp only
      unfold add_save add_ids
      apply add_ids_go_pairwise
      have hs := @List.sorted_mergeSort Reminder
        (fun a b : Reminder => decide (b.due ≤ a.due))
        (fun a b c h1 h2 => by
          simp only [decide_eq_true_eq] at h1 h2 ⊢
          omega)
        (fun a b => by
          simp only [Bool.or_eq_true, decide_eq_true_eq]
          exact Int.le_total b.due a.due)
        (rs0 ++ [({ text := text, due := mktime due, id := none } : Reminder)])
      exact hs.imp (fun h => of_decide_eq_true h)
  · refine ⟨10, [("a", 0), ("b", 5)], ?_⟩
    decide
/-- C3: for every valid `MM/DD` day expression, the resolved day keeps the
given month and day, and its year is today's year if the current-year
interpretation is on or after today, and today's year plus one if it is
strictly before today. -/
theorem claim3_mmdd_year (today : Date) (day_str : Str) (m d : Nat)
    (day1 : Date) (note : Bool)
    (hplus : ¬ (day_str.take 1 = ['+']))
    (hmd : strptimeMD day_str = some (m, d))
    (hok : resolve_day today day_str = .ok (day1, note)) :
    day1 = ⟨if DLt ⟨today.year, m, d⟩ today then today.year + 1 else today.year, m, d⟩ := by
  unfold resolve_day resolve_day_base at hok
  rw [if_neg hplus, hmd] at hok
  dsimp only at hok
  cases hrep : pyReplaceYear ⟨1900, m, d⟩ today.year with
  | none => rw [hrep] at hok; simp at hok
  | some d0 =>
    rw [hrep] at hok
    dsimp only at hok
    have hd0 : d0 = ⟨today.year, m, d⟩ := pyReplaceYear_some hrep
    subst hd0
    by_cases hbt : DLt ⟨today.year, m, d⟩ today
    · rw [if_pos (by simpa [dateLt] using hbt)] at hok
      cases h30 : pyAddDays today (-30) with
      | none => rw [h30] at hok; simp at hok
      | some t30 =>
        rw [h30] at hok
        dsimp only at hok
        cases hrep2 : pyReplaceYear ⟨today.year, m, d⟩ (today.year + 1) with
        | none => rw [hrep2] at hok; simp at hok
        | some day1' =>
          rw [hrep2] at hok
          dsimp only at hok
          simp only [PResult.ok.injEq, Prod.mk.injEq] at hok
          obtain ⟨h1, h2⟩ := hok
          have h3 : day1' = ⟨today.year + 1, m, d⟩ := pyReplaceYear_some hrep2
          rw [if_pos hbt, ← h1, h3]
    · rw [if_neg (by simpa [dateLt] using hbt)] at hok
      simp only [PResult.ok.injEq, Prod.mk.injEq] at hok
      obtain ⟨h1, h2⟩ := hok
      rw [if_neg hbt, ← h1]

/-- C7: for an `MM/DD` expression that rolls to next year, the user-visible
informational note is printed exactly when the current-year interpretation
falls within the 30 days strictly before today (i.e. it is `today - k days`
for some `0 < k < 30`); a date 30 or more days in the past produces no
user-visible note (debug-only). -/
theorem claim7_roll_note (today : Date) (day_str : Str) (m d : Nat)
    (day1 : Date) (note : Bool)
    (hv : validDate today)
    (hplus : ¬ (day_str.take 1 = ['+']))
    (hmd : strptimeMD day_str = some (m, d))
    (hroll : DLt ⟨today.year, m, d⟩ today)
    (hok : resolve_day today day_str = .ok (day1, note)) :
    note = true ↔ ∃ k, 0 < k ∧ k < 30 ∧ (⟨today.year, m, d⟩ : Date) = subDaysNat today k := by
  have hvd : validDate (⟨today.year, m, d⟩ : Date) := by
    obtain ⟨b1, b2, b3, b4⟩ := strptimeMD_bounds hmd
    exact ⟨b1, b2, b3, Nat.le_trans b4 (daysInMonth_false_le _ m)⟩
  unfold resolve_day resolve_day_base at hok
  rw [if_neg hplus, hmd] at hok
  dsimp only at hok
  cases hrep : pyReplaceYear ⟨1900, m, d⟩ today.year with
  | none => rw [hrep] at hok; simp at hok
  | some d0 =>
    rw [hrep] at hok
    dsimp only at hok
    have hd0 : d0 = ⟨today.year, m, d⟩ := pyReplaceYear_some hrep
    subst hd0
    rw [if_pos (by simpa [dateLt] using hroll)] at hok
    cases h30 : pyAddDays today (-30) with
    | none => rw [h30] at hok; simp at hok
    | some t30 =>
      rw [h30] at hok
      dsimp only at hok
      have ht30 : t30 = subDaysNat today 30 := by
        rw [pyAddDays_some h30, timedeltaShift_neg30]
      cases hrep2 : pyReplaceYear ⟨today.year, m, d⟩ (today.year + 1) with
      | none => rw [hrep2] at hok; simp at hok
      | some day1' =>
        rw [hrep2] at hok
        dsimp only at hok
        simp only [PResult.ok.injEq, Prod.mk.injEq] at hok
        obtain ⟨h1, h2⟩ := hok
        subst h2
        rw [ht30]
        constructor
        · intro hn
          have hlt : DLt (subDaysNat today 30) ⟨today.year, m, d⟩ := by
            simpa [dateLt] using hn
          exact between_finds hv hvd 30 0 rfl hroll hlt
        · rintro ⟨k, hk0, hk30, heq⟩
          have h30k : (30 : Nat) = k + (30 - k) := by omega
          have hlt : DLt (subDaysNat today 30) (subDaysNat today k) := by
            rw [h30k, subDaysNat_add]
            exact subDaysNat_lt _ (by omega)
          rw [← heq] at hlt
          simpa [dateLt] using hlt

/-- C8: for every relative-offset expression `+N` (`N` a digit string, result
within Python's date range) the resolved day is exactly `today + N` days:
the year-inference step does not fire, no informational note is produced,
and the result is never advanced to the next year. -/
theorem claim8_plus_offset (today : Date) (ds : Str) (r : Date)
    (hne : ds ≠ [])
    (hdig : ds.all Char.isDigit = true)
    (hrange : pyAddDays today ((digitsToNat ds : Nat) : Int) = some r) :
    resolve_day today ('+' :: ds) = .ok (r, false) ∧ r = addDaysNat today (digitsToNat ds) := by
  have hr : r = addDaysNat today (digitsToNat ds) := by
    rw [pyAddDays_some hrange, timedeltaShift_ofNat]
  have hnl : ¬ DLt r today := by rw [hr]; exact addDaysNat_not_lt today _
  refine ⟨?_, hr⟩
  unfold resolve_day resolve_day_base
  rw [if_pos (show List.take 1 ('+' :: ds) = ['+'] from rfl)]
  rw [show List.drop 1 ('+' :: ds) = ds from rfl]
  rw [pyInt_digits hne hdig]
  dsimp only
  rw [hrange]
  dsimp only
  rw [if_neg (by simpa [dateLt] using hnl)]

set_option maxRecDepth 40000

/-- C1 (refuted): evaluating the code at failing due-expressions.  An unknown
day format (`13/45`), a non-integer hour (`12/25@zz`) and an out-of-range
hour (`12/25@25`) all make `parse_due_str` raise an uncaught `ValueError`
(the process crashes) instead of returning the distinguished `None`; only
the multiple-`@` case returns `None`, in which case `add_reminder` echoes
the input and leaves the store untouched, without saving. -/
theorem claim1_parse_failures_crash :
    parse_due_str ⟨2024, 3, 1⟩ (("12/25@zz").toList) = .raised
    ∧ parse_due_str ⟨2024, 3, 1⟩ (("13/45").toList) = .raised
    ∧ parse_due_str ⟨2024, 3, 1⟩ (("12/25@25").toList) = .raised
    ∧ parse_due_str ⟨2024, 3, 1⟩ (("1/1@2@3").toList) = .retNone
    ∧ add_reminder (fun _ => 0) 0 ⟨2024, 3, 1⟩ (("12/25@zz").toList) "x" []
        = (.raised, [])
    ∧ add_reminder (fun _ => 0) 0 ⟨2024, 3, 1⟩ (("1/1@2@3").toList) "x" []
        = (.parseFailExit (("1/1@2@3").toList), []) := by
  refine ⟨by decide, by decide, by decide, by decide, by decide, by decide⟩

/-- C2 (refuted): evaluating `parse_time_str` on the spec's examples.  The
code maps `12am` to 12 (not 0) and `12pm` to 24 (not 12), and accepts `25`
and `13pm` as hours 25 (no range check), instead of rejecting them; the
hour 24 from `12pm` then makes the `datetime` constructor raise, crashing
the add command. -/
theorem claim2_time_suffix_values :
    parse_time_str (("2am").toList) = some 2
    ∧ parse_time_str (("12am").toList) = some 12
    ∧ parse_time_str (("2pm").toList) = some 14
    ∧ parse_time_str (("12pm").toList) = some 24
    ∧ parse_time_str (("15").toList) = some 15
    ∧ parse_time_str (("25").toList) = some 25
    ∧ parse_time_str (("13pm").toList) = some 25
    ∧ parse_due_str ⟨2024, 3, 1⟩ (("3/1@12pm").toList) = .raised := by
  refine ⟨by decide, by decide, by decide, by decide, by decide, by decide, by decide, by decide⟩

/-- Witness for C3 at a concrete input: `2/15` seen from 2024-03-01 resolves
to 2025-02-15. -/
theorem claim3_witness :
    (⟨2025, 2, 15⟩ : Date)
      = ⟨if DLt ⟨(2024 : Int), 2, 15⟩ ⟨2024, 3, 1⟩ then (2024 : Int) + 1 else 2024, 2, 15⟩ :=
  claim3_mmdd_year ⟨2024, 3, 1⟩ (("2/15").toList) 2 15 ⟨2025, 2, 15⟩ true
    (by decide) (by decide) (by decide)

/-- Witness for C7: 2024-02-15 is within 30 days before 2024-03-01, and the
note is indeed user-visible there. -/
theorem claim7_witness :
    ∃ k, 0 < k ∧ k < 30 ∧ (⟨(2024 : Int), 2, 15⟩ : Date) = subDaysNat ⟨2024, 3, 1⟩ k :=
  (claim7_roll_note ⟨2024, 3, 1⟩ (("2/15").toList) 2 15 ⟨2025, 2, 15⟩ true
    (by decide) (by decide) (by decide) (by decide) (by decide)).mp rfl

/-- Witness for C8 at the concrete expression `+5`. -/
theorem claim8_witness :
    resolve_day ⟨2024, 3, 1⟩ ('+' :: ("5").toList) = .ok (⟨2024, 3, 6⟩, false)
    ∧ (⟨2024, 3, 6⟩ : Date) = addDaysNat ⟨2024, 3, 1⟩ (digitsToNat (("5").toList)) :=
  claim8_plus_offset ⟨2024, 3, 1⟩ (("5").toList) ⟨2024, 3, 6⟩
    (by decide) (by decide) (by decide)

/-- Witness for C4 at a concrete sorted set. -/
theorem claim4_witness :
    (print_reminders_list 10 (add_ids 10
        [⟨"a", 20, none⟩, ⟨"b", 8, none⟩, ⟨"c", 3, none⟩])).map Reminder.id
      = (List.range' 1 (print_reminders_list 10 (add_ids 10
          [⟨"a", 20, none⟩, ⟨"b", 8, none⟩, ⟨"c", 3, none⟩])).length).map some :=
  (claim4_default_listing 10 [⟨"a", 20, none⟩, ⟨"b", 8, none⟩, ⟨"c", 3, none⟩]
    (by decide)).2.2.1

/-- Witness for C5 at a concrete state. -/
theorem claim5_witness :
    ∃ i, ∃ hi : i < (add_ids 10 [⟨"a", 20, none⟩, ⟨"b", 8, none⟩, ⟨"c", 3, none⟩]).length,
      ((add_ids 10 [⟨"a", 20, none⟩, ⟨"b", 8, none⟩, ⟨"c", 3, none⟩]).get ⟨i, hi⟩).id
        = some 2 := by
  obtain ⟨i, hi, h1, _, _, _⟩ :=
    claim5_complete_removes 10 11 [⟨"a", 20, none⟩, ⟨"b", 8, none⟩, ⟨"c", 3, none⟩] 2
      (by decide)
  exact ⟨i, hi, h1⟩

/-- Witness for C6 at a concrete state and unmatched id. -/
theorem claim6_witness :
    mark_done 11 5 [⟨"a", 20, none⟩, ⟨"b", 8, some 1⟩, ⟨"c", 3, some 2⟩]
      = (.notFound 5, [⟨"a", 20, none⟩, ⟨"b", 8, some 1⟩, ⟨"c", 3, some 2⟩]) :=
  claim6_notfound_unchanged 11 5 [⟨"a", 20, none⟩, ⟨"b", 8, some 1⟩, ⟨"c", 3, some 2⟩]
    (by decide)
